import Mathlib

/-
  Verification of the process-launch / injection layer of this repository
  (src/renderdoc/os/posix/posix_process.cpp), shallowly embedded in Lean.

  Modelling conventions:
  - rdcstr (a byte string in the C++ code) is modelled as List Char.
  - OS primitives that are only declared in the translation unit
    (getcwd, getenv, getpwnam, realpath, FileIO::FindFileInPath,
    get_dirname, get_basename, rdcstr::trimmed, execve success,
    GetIdentPort, ResumeProcess, waitpid) are abstracted as oracle
    fields of an environment structure, since their definitions are
    outside this translation unit.
  - Effects relevant to the claims (chdir, execve, fork, resume, wait)
    are recorded as explicit event traces.
-/

set_option autoImplicit false

namespace RenderDocPosix

/-- rdcstr is modelled as a list of characters. -/
abbrev rdcstr := List Char

/-- Shorthand to turn a Lean string literal into an rdcstr. -/
def str (s : String) : rdcstr := s.data

/-- The single-quote character, written via its code point. -/
def squoteChar : Char := Char.ofNat 39

/-
  ParseCommandLine (posix_process.cpp, lines 438-533): shell-like
  tokenizer. The while loop over the C string is translated as a
  recursion over the character list; the loop state is
  (argv, a, haveArg, dquot, squot). The two RDCERR branches return
  the empty array.
-/

/-- The body of the tokenizer loop of ParseCommandLine, including the
end-of-input handling after the loop (push of a pending token, and the
check for an unterminated quote). -/
def parseLoop : List Char → List rdcstr → rdcstr → Bool → Bool → Bool → List rdcstr
  | [], argv, a, haveArg, dquot, squot =>
    let argv2 := if !a.isEmpty || haveArg then argv ++ [a] else argv
    if squot || dquot then [] else argv2
  | c :: cs, argv, a, haveArg, dquot, squot =>
    if !dquot && !squot && (c == ' ' || c == '\t') then
      parseLoop cs (if !a.isEmpty || haveArg then argv ++ [a] else argv) [] false dquot squot
    else if !dquot && !squot && c == '"' then
      parseLoop cs argv a true true squot
    else if !dquot && !squot && c == squoteChar then
      parseLoop cs argv a true dquot true
    else if dquot && c == '"' then
      parseLoop cs argv a haveArg false squot
    else if squot && c == squoteChar then
      parseLoop cs argv a haveArg dquot false
    else if squot then
      parseLoop cs argv (a ++ [c]) haveArg dquot squot
    else if dquot then
      if c == '\\' then
        match cs with
        | [] => []
        | e :: cs2 => parseLoop cs2 argv (a ++ [e]) haveArg dquot squot
      else
        parseLoop cs argv (a ++ [c]) haveArg dquot squot
    else
      parseLoop cs argv (a ++ [c]) haveArg dquot squot

/-- ParseCommandLine: argv starts as the application name; an empty
command line is not parsed at all. -/
def ParseCommandLine (appName cmdLine : rdcstr) : List rdcstr :=
  if cmdLine.isEmpty then [appName] else parseLoop cmdLine [appName] [] false false false

/-- Specification-side quote tracker: runs the same quote-state
transitions as the tokenizer and reports the final (dquot, squot)
state, or none if the input ends with an unterminated backslash
escape inside double quotes. An input is malformed in the sense of
the specification exactly when this returns none or ends with an
open quote. -/
def quoteScan : List Char → Bool → Bool → Option (Bool × Bool)
  | [], dquot, squot => some (dquot, squot)
  | c :: cs, dquot, squot =>
    if !dquot && !squot && c == '"' then quoteScan cs true squot
    else if !dquot && !squot && c == squoteChar then quoteScan cs dquot true
    else if dquot && c == '"' then quoteScan cs false squot
    else if squot && c == squoteChar then quoteScan cs dquot false
    else if dquot && c == '\\' then
      match cs with
      | [] => none
      | _ :: cs2 => quoteScan cs2 dquot squot
    else quoteScan cs dquot squot

/- Step lemmas for parseLoop: one per branch of the loop body, for each
reachable quote state (dquot, squot) with not both set. -/

theorem parseLoop_ff_space (c : Char) (cs : List Char) (argv : List rdcstr) (a : rdcstr)
    (ha : Bool) (hsp : (c == ' ' || c == '\t') = true) :
    parseLoop (c :: cs) argv a ha false false
      = parseLoop cs (if !a.isEmpty || ha then argv ++ [a] else argv) [] false false false := by
  rw [parseLoop.eq_def]
  simp [hsp]

theorem parseLoop_ff_dq (cs : List Char) (argv : List rdcstr) (a : rdcstr) (ha : Bool) :
    parseLoop ('"' :: cs) argv a ha false false = parseLoop cs argv a true true false := by
  rw [parseLoop.eq_def]
  simp

theorem parseLoop_ff_sq (cs : List Char) (argv : List rdcstr) (a : rdcstr) (ha : Bool) :
    parseLoop (squoteChar :: cs) argv a ha false false = parseLoop cs argv a true false true := by
  have h0 : (squoteChar == ' ' || squoteChar == '\t') = false := by decide
  have h1 : (squoteChar == '"') = false := by decide
  have h2 : (squoteChar == squoteChar) = true := by decide
  rw [parseLoop.eq_def]
  simp [h0, h1, h2]

theorem parseLoop_ff_other (c : Char) (cs : List Char) (argv : List rdcstr) (a : rdcstr)
    (ha : Bool) (h1 : (c == ' ' || c == '\t') = false) (h2 : (c == '"') = false)
    (h3 : (c == squoteChar) = false) :
    parseLoop (c :: cs) argv a ha false false = parseLoop cs argv (a ++ [c]) ha false false := by
  rw [parseLoop.eq_def]
  simp [h1, h2, h3]

theorem parseLoop_tf_dq (cs : List Char) (argv : List rdcstr) (a : rdcstr) (ha : Bool) :
    parseLoop ('"' :: cs) argv a ha true false = parseLoop cs argv a ha false false := by
  rw [parseLoop.eq_def]
  simp

theorem parseLoop_tf_esc_nil (argv : List rdcstr) (a : rdcstr) (ha : Bool) :
    parseLoop ['\\'] argv a ha true false = [] := by
  rw [parseLoop.eq_def]
  simp

theorem parseLoop_tf_esc_cons (e : Char) (cs : List Char) (argv : List rdcstr) (a : rdcstr)
    (ha : Bool) :
    parseLoop ('\\' :: e :: cs) argv a ha true false
      = parseLoop cs argv (a ++ [e]) ha true false := by
  rw [parseLoop.eq_def]
  simp

theorem parseLoop_tf_other (c : Char) (cs : List Char) (argv : List rdcstr) (a : rdcstr)
    (ha : Bool) (h2 : (c == '"') = false) (h4 : (c == '\\') = false) :
    parseLoop (c :: cs) argv a ha true false = parseLoop cs argv (a ++ [c]) ha true false := by
  rw [parseLoop.eq_def]
  simp [h2, h4]

theorem parseLoop_ft_sq (cs : List Char) (argv : List rdcstr) (a : rdcstr) (ha : Bool) :
    parseLoop (squoteChar :: cs) argv a ha false true = parseLoop cs argv a ha false false := by
  have h2 : (squoteChar == squoteChar) = true := by decide
  rw [parseLoop.eq_def]
  simp [h2]

theorem parseLoop_ft_other (c : Char) (cs : List Char) (argv : List rdcstr) (a : rdcstr)
    (ha : Bool) (h3 : (c == squoteChar) = false) :
    parseLoop (c :: cs) argv a ha false true = parseLoop cs argv (a ++ [c]) ha false true := by
  rw [parseLoop.eq_def]
  simp [h3]

/- Matching step lemmas for the quote tracker. -/

theorem quoteScan_ff_dq (cs : List Char) :
    quoteScan ('"' :: cs) false false = quoteScan cs true false := by
  rw [quoteScan.eq_def]
  simp

theorem quoteScan_ff_sq (cs : List Char) :
    quoteScan (squoteChar :: cs) false false = quoteScan cs false true := by
  have h1 : (squoteChar == '"') = false := by decide
  have h2 : (squoteChar == squoteChar) = true := by decide
  rw [quoteScan.eq_def]
  simp [h1, h2]

theorem quoteScan_ff_other (c : Char) (cs : List Char) (h2 : (c == '"') = false)
    (h3 : (c == squoteChar) = false) :
    quoteScan (c :: cs) false false = quoteScan cs false false := by
  rw [quoteScan.eq_def]
  simp [h2, h3]

theorem quoteScan_tf_dq (cs : List Char) :
    quoteScan ('"' :: cs) true false = quoteScan cs false false := by
  rw [quoteScan.eq_def]
  simp

theorem quoteScan_tf_esc_nil : quoteScan ['\\'] true false = none := by
  rw [quoteScan.eq_def]
  simp

theorem quoteScan_tf_esc_cons (e : Char) (cs : List Char) :
    quoteScan ('\\' :: e :: cs) true false = quoteScan cs true false := by
  rw [quoteScan.eq_def]
  simp

theorem quoteScan_tf_other (c : Char) (cs : List Char) (h2 : (c == '"') = false)
    (h4 : (c == '\\') = false) :
    quoteScan (c :: cs) true false = quoteScan cs true false := by
  rw [quoteScan.eq_def]
  simp [h2, h4]

theorem quoteScan_ft_sq (cs : List Char) :
    quoteScan (squoteChar :: cs) false true = quoteScan cs false false := by
  have h2 : (squoteChar == squoteChar) = true := by decide
  rw [quoteScan.eq_def]
  simp [h2]

theorem quoteScan_ft_other (c : Char) (cs : List Char) (h3 : (c == squoteChar) = false) :
    quoteScan (c :: cs) false true = quoteScan cs false true := by
  rw [quoteScan.eq_def]
  simp [h3]

/-- End-of-input case of the correspondence between the tokenizer loop and
the quote tracker. -/
theorem parseLoop_quoteScan_nil (argv : List rdcstr) (a : rdcstr) (haveArg dquot squot : Bool) :
    (quoteScan [] dquot squot = none → parseLoop [] argv a haveArg dquot squot = []) ∧
    (∀ d2 s2 : Bool, quoteScan [] dquot squot = some (d2, s2) → (d2 || s2) = true →
      parseLoop [] argv a haveArg dquot squot = []) ∧
    (quoteScan [] dquot squot = some (false, false) →
      ∃ rest, parseLoop [] argv a haveArg dquot squot = argv ++ rest) := by
  refine ⟨by simp [quoteScan], ?_, ?_⟩
  · intro d2 s2 h hor
    rw [quoteScan.eq_def] at h
    simp only [Option.some.injEq, Prod.mk.injEq] at h
    obtain ⟨h1, h2⟩ := h
    subst h1
    subst h2
    rw [parseLoop.eq_def]
    have hor2 : (squot || dquot) = true := by
      cases dquot <;> cases squot <;> simp_all
    simp [hor2]
  · intro h
    rw [quoteScan.eq_def] at h
    simp only [Option.some.injEq, Prod.mk.injEq] at h
    obtain ⟨h1, h2⟩ := h
    subst h1
    subst h2
    rw [parseLoop.eq_def]
    simp only [Bool.or_false, Bool.false_eq_true, if_false]
    exact ⟨if !a.isEmpty || haveArg then [a] else [], by split <;> simp⟩

/-- Correspondence between the tokenizer loop and the quote tracker:
if the tracker reports an unterminated escape (none) or ends inside an
open quote, the loop returns the empty array; if the tracker ends with
all quotes closed, the loop returns its incoming argv with zero or
more tokens appended. Stated with an explicit fuel bound for the
induction, since the escape case consumes two characters at once. -/
theorem parseLoop_quoteScan (fuel : Nat) :
    ∀ cs : List Char, cs.length ≤ fuel →
    ∀ (argv : List rdcstr) (a : rdcstr) (haveArg dquot squot : Bool),
    (dquot && squot) = false →
    (quoteScan cs dquot squot = none → parseLoop cs argv a haveArg dquot squot = []) ∧
    (∀ d2 s2 : Bool, quoteScan cs dquot squot = some (d2, s2) → (d2 || s2) = true →
      parseLoop cs argv a haveArg dquot squot = []) ∧
    (quoteScan cs dquot squot = some (false, false) →
      ∃ rest, parseLoop cs argv a haveArg dquot squot = argv ++ rest) := by
  induction fuel with
  | zero =>
    intro cs hlen argv a haveArg dquot squot hds
    have hcs : cs = [] := List.length_eq_zero.mp (Nat.le_zero.mp hlen)
    subst hcs
    exact parseLoop_quoteScan_nil argv a haveArg dquot squot
  | succ k ih =>
    intro cs hlen argv a haveArg dquot squot hds
    cases cs with
    | nil => exact parseLoop_quoteScan_nil argv a haveArg dquot squot
    | cons c cs2 =>
      have hlen2 : cs2.length ≤ k := by
        simp only [List.length_cons] at hlen
        omega
      cases dquot with
      | true =>
        cases squot with
        | true => simp at hds
        | false =>
          by_cases h2 : (c == '"') = true
          · have hc : c = '"' := eq_of_beq h2
            subst hc
            rw [parseLoop_tf_dq, quoteScan_tf_dq]
            exact ih cs2 hlen2 argv a haveArg false false rfl
          · have h2f : (c == '"') = false := by simpa using h2
            by_cases h4 : (c == '\\') = true
            · have hc : c = '\\' := eq_of_beq h4
              subst hc
              cases cs2 with
              | nil =>
                rw [parseLoop_tf_esc_nil, quoteScan_tf_esc_nil]
                simp
              | cons e cs3 =>
                have hlen3 : cs3.length ≤ k := by
                  simp only [List.length_cons] at hlen2
                  omega
                rw [parseLoop_tf_esc_cons, quoteScan_tf_esc_cons]
                exact ih cs3 hlen3 argv (a ++ [e]) haveArg true false rfl
            · have h4f : (c == '\\') = false := by simpa using h4
              rw [parseLoop_tf_other c cs2 argv a haveArg h2f h4f,
                quoteScan_tf_other c cs2 h2f h4f]
              exact ih cs2 hlen2 argv (a ++ [c]) haveArg true false rfl
      | false =>
        cases squot with
        | true =>
          by_cases h3 : (c == squoteChar) = true
          · have hc : c = squoteChar := eq_of_beq h3
            subst hc
            rw [parseLoop_ft_sq, quoteScan_ft_sq]
            exact ih cs2 hlen2 argv a haveArg false false rfl
          · have h3f : (c == squoteChar) = false := by simpa using h3
            rw [parseLoop_ft_other c cs2 argv a haveArg h3f, quoteScan_ft_other c cs2 h3f]
            exact ih cs2 hlen2 argv (a ++ [c]) haveArg false true rfl
        | false =>
          by_cases h2 : (c == '"') = true
          · have hc : c = '"' := eq_of_beq h2
            subst hc
            rw [parseLoop_ff_dq, quoteScan_ff_dq]
            exact ih cs2 hlen2 argv a true true false rfl
          · have h2f : (c == '"') = false := by simpa using h2
            by_cases h3 : (c == squoteChar) = true
            · have hc : c = squoteChar := eq_of_beq h3
              subst hc
              rw [parseLoop_ff_sq, quoteScan_ff_sq]
              exact ih cs2 hlen2 argv a true false true rfl
            · have h3f : (c == squoteChar) = false := by simpa using h3
              by_cases hsp : (c == ' ' || c == '\t') = true
              · rw [parseLoop_ff_space c cs2 argv a haveArg hsp,
                  quoteScan_ff_other c cs2 h2f h3f]
                obtain ⟨p1, p2, p3⟩ :=
                  ih cs2 hlen2 (if !a.isEmpty || haveArg then argv ++ [a] else argv) []
                    false false false rfl
                refine ⟨p1, p2, ?_⟩
                intro h
                obtain ⟨rest, hr⟩ := p3 h
                refine ⟨(if !a.isEmpty || haveArg then [a] else []) ++ rest, ?_⟩
                rw [hr]
                split <;> simp_all
              · have hspf : (c == ' ' || c == '\t') = false := by simpa using hsp
                rw [parseLoop_ff_other c cs2 argv a haveArg hspf h2f h3f,
                  quoteScan_ff_other c cs2 h2f h3f]
                exact ih cs2 hlen2 argv (a ++ [c]) haveArg false false rfl

/-- C5 (counterexample): the claim quantifies over every command line, but on
a malformed command line consisting of a lone single quote the tokenizer
returns the empty sequence, which has length 0 and no element 0. -/
theorem parseCommandLine_length_counterexample :
    ParseCommandLine (str "app") [squoteChar] = [] := by decide

/-- C5 (amended): for every command name and every command line that the
tokenizer accepts (the quote tracker ends with both quote modes closed and
no unterminated escape), the returned sequence has length at least 1 and
its element 0 is the command name. -/
theorem parseCommandLine_wellformed_head (appName cmdLine : rdcstr)
    (h : quoteScan cmdLine false false = some (false, false)) :
    1 ≤ (ParseCommandLine appName cmdLine).length ∧
    (ParseCommandLine appName cmdLine).head? = some appName := by
  rw [ParseCommandLine]
  by_cases he : cmdLine.isEmpty = true
  · simp [he]
  · simp only [he, Bool.false_eq_true, if_false]
    obtain ⟨rest, hr⟩ :=
      (parseLoop_quoteScan cmdLine.length cmdLine le_rfl [appName] [] false false false rfl).2.2 h
    rw [hr]
    simp

/-- C5 witness. -/
theorem parseCommandLine_wellformed_head_witness :
    1 ≤ (ParseCommandLine (str "app") (str "--foo")).length ∧
    (ParseCommandLine (str "app") (str "--foo")).head? = some (str "app") :=
  parseCommandLine_wellformed_head (str "app") (str "--foo") (by decide)

/-- C6: for every input that ends while still inside an open single or
double quote, or that ends with an unterminated backslash escape inside
double quotes, the tokenizer returns the empty sequence - no partial or
truncated token list. -/
theorem parseCommandLine_malformed_empty (appName cmdLine : rdcstr)
    (h : quoteScan cmdLine false false = none ∨
      ∃ d s : Bool, quoteScan cmdLine false false = some (d, s) ∧ (d || s) = true) :
    ParseCommandLine appName cmdLine = [] := by
  cases hcs : cmdLine with
  | nil =>
    subst hcs
    rcases h with h | ⟨d, s, h, hor⟩
    · simp [quoteScan] at h
    · rw [quoteScan.eq_def] at h
      simp only [Option.some.injEq, Prod.mk.injEq] at h
      obtain ⟨h1, h2⟩ := h
      subst h1
      subst h2
      simp at hor
  | cons c cs2 =>
    subst hcs
    rw [ParseCommandLine]
    simp only [List.isEmpty_cons, Bool.false_eq_true, if_false]
    rcases h with h | ⟨d, s, h, hor⟩
    · exact (parseLoop_quoteScan (c :: cs2).length (c :: cs2) le_rfl [appName] []
        false false false rfl).1 h
    · exact (parseLoop_quoteScan (c :: cs2).length (c :: cs2) le_rfl [appName] []
        false false false rfl).2.1 d s h hor

/-- C6 witness: a command line with an unterminated single quote. -/
theorem parseCommandLine_malformed_empty_witness :
    ParseCommandLine (str "app") ([squoteChar] ++ str "unterminated") = [] :=
  parseCommandLine_malformed_empty (str "app") ([squoteChar] ++ str "unterminated")
    (Or.inr ⟨false, true, by decide, rfl⟩)

/-- C7: concatenated quoted segments form a single token, and an explicitly
quoted empty string yields an empty token. -/
theorem parseCommandLine_concat_quotes_empty_token :
    ParseCommandLine (str "app")
        ([squoteChar] ++ str "foo" ++ [squoteChar, squoteChar] ++ str "bar"
          ++ [squoteChar, squoteChar] ++ str "blah" ++ [squoteChar])
      = [str "app", str "foobarblah"] ∧
    ParseCommandLine (str "app") (str "--explicit " ++ [squoteChar, squoteChar] ++ str " --empty")
      = [str "app", str "--explicit", str "", str "--empty"] := by
  constructor <;> decide

/-
  Environment modification engine (posix_process.cpp):
  ApplySingleEnvMod (lines 354-389) and the inline per-modification
  update in Process::LaunchAndInjectIntoProcess (lines 1036-1073).
-/

/-- EnvMod from the replay API headers. -/
inductive EnvMod where
  | Set
  | Append
  | Prepend
deriving DecidableEq

/-- EnvSep from the replay API headers. -/
inductive EnvSep where
  | NoSep
  | Colon
  | SemiColon
  | Platform
deriving DecidableEq

/-- EnvironmentModification from the replay API headers, with the
constructor field order used at the call sites. -/
structure EnvironmentModification where
  mod : EnvMod
  sep : EnvSep
  name : rdcstr
  value : rdcstr
deriving DecidableEq

/-- ApplySingleEnvMod (lines 354-389). On posix the Platform separator
resolves to the colon. -/
def ApplySingleEnvMod (m : EnvironmentModification) (value : rdcstr) : rdcstr :=
  match m.mod with
  | EnvMod.Set => m.value
  | EnvMod.Append =>
    (if !value.isEmpty then
      if m.sep = EnvSep.Platform ∨ m.sep = EnvSep.Colon then value ++ str ":"
      else if m.sep = EnvSep.SemiColon then value ++ str ";"
      else value
    else value) ++ m.value
  | EnvMod.Prepend =>
    if !value.isEmpty then
      (if m.sep = EnvSep.Platform ∨ m.sep = EnvSep.Colon then m.value ++ str ":"
       else if m.sep = EnvSep.SemiColon then m.value ++ str ";"
       else m.value) ++ value
    else m.value

/-- The inline per-modification update coded directly inside
Process::LaunchAndInjectIntoProcess (lines 1042-1072). Note that its
Prepend case, for a non-empty current value, only appends a separator
to the current value and never adds m.value. -/
def inlineEnvUpdate (m : EnvironmentModification) (value : rdcstr) : rdcstr :=
  match m.mod with
  | EnvMod.Set => m.value
  | EnvMod.Append =>
    (if !value.isEmpty then
      if m.sep = EnvSep.Platform ∨ m.sep = EnvSep.Colon then value ++ str ":"
      else if m.sep = EnvSep.SemiColon then value ++ str ";"
      else value
    else value) ++ m.value
  | EnvMod.Prepend =>
    if !value.isEmpty then
      if m.sep = EnvSep.Platform ∨ m.sep = EnvSep.Colon then value ++ str ":"
      else if m.sep = EnvSep.SemiColon then value ++ str ";"
      else value
    else m.value

/-- The separator string denoted by each EnvSep value on posix. -/
def sepString : EnvSep → rdcstr
  | EnvSep.NoSep => []
  | EnvSep.Colon => str ":"
  | EnvSep.SemiColon => str ";"
  | EnvSep.Platform => str ":"

/-- The Prepend modification used to exhibit the divergence of the inline
update from ApplySingleEnvMod. -/
def prependBugMod : EnvironmentModification :=
  ⟨EnvMod.Prepend, EnvSep.Colon, str "X", str "new"⟩

/-- C3: at a Prepend modification with a non-empty current value the inline
update in LaunchAndInjectIntoProcess does not compute the same value as
ApplySingleEnvMod: it discards the new value and yields the old value
followed by a dangling separator, where ApplySingleEnvMod yields the new
value, the separator, then the old value. -/
theorem inlineEnvUpdate_prepend_divergence :
    inlineEnvUpdate prependBugMod (str "orig") = str "orig:" ∧
    ApplySingleEnvMod prependBugMod (str "orig") = str "new:orig" ∧
    inlineEnvUpdate prependBugMod (str "orig")
      ≠ ApplySingleEnvMod prependBugMod (str "orig") := by
  refine ⟨by decide, by decide, by decide⟩

/-- C4: Append and Prepend on an absent (empty) current value behave as Set,
and a Prepend followed by an Append with the same separator on an
initially-present value yields prepend ++ sep ++ original ++ sep ++ append. -/
theorem applySingleEnvMod_algebra :
    (∀ (sep : EnvSep) (nm v : rdcstr),
      ApplySingleEnvMod ⟨EnvMod.Append, sep, nm, v⟩ []
          = ApplySingleEnvMod ⟨EnvMod.Set, sep, nm, v⟩ [] ∧
      ApplySingleEnvMod ⟨EnvMod.Prepend, sep, nm, v⟩ []
          = ApplySingleEnvMod ⟨EnvMod.Set, sep, nm, v⟩ []) ∧
    (∀ (sep : EnvSep) (nm orig p a : rdcstr), orig ≠ [] →
      ApplySingleEnvMod ⟨EnvMod.Append, sep, nm, a⟩
          (ApplySingleEnvMod ⟨EnvMod.Prepend, sep, nm, p⟩ orig)
        = p ++ sepString sep ++ orig ++ sepString sep ++ a) := by
  constructor
  · intro sep nm v
    constructor <;> simp [ApplySingleEnvMod]
  · intro sep nm orig p a horig
    have h1 : ApplySingleEnvMod ⟨EnvMod.Prepend, sep, nm, p⟩ orig
        = p ++ sepString sep ++ orig := by
      cases sep <;> simp [ApplySingleEnvMod, sepString, horig]
    have h2 : p ++ sepString sep ++ orig ≠ [] := by
      simp [horig]
    rw [h1]
    have hc : str ":" ≠ [] := by decide
    have hsc : str ";" ≠ [] := by decide
    cases sep <;> simp [ApplySingleEnvMod, sepString, h2, hc, hsc, horig, List.append_assoc]

/-- C4 witness. -/
theorem applySingleEnvMod_algebra_witness :
    ApplySingleEnvMod ⟨EnvMod.Append, EnvSep.Colon, str "N", str "v"⟩ []
        = ApplySingleEnvMod ⟨EnvMod.Set, EnvSep.Colon, str "N", str "v"⟩ [] ∧
    ApplySingleEnvMod ⟨EnvMod.Append, EnvSep.Colon, str "N", str "a"⟩
        (ApplySingleEnvMod ⟨EnvMod.Prepend, EnvSep.Colon, str "N", str "p"⟩ (str "o"))
      = str "p" ++ sepString EnvSep.Colon ++ str "o" ++ sepString EnvSep.Colon ++ str "a" :=
  ⟨(applySingleEnvMod_algebra.1 EnvSep.Colon (str "N") (str "v")).1,
   applySingleEnvMod_algebra.2 EnvSep.Colon (str "N") (str "o") (str "p") (str "a") (by decide)⟩

/-
  PIDList (posix_process.cpp lines 79-153): an intrusive singly linked
  list of PIDNode records, plus the zombie reaper built on it
  (ZombieWaiter, lines 159-213, and the registration in RunProcess,
  lines 746-762). Following the memory-safe representation suggested by
  the design notes, a node is identified by its allocation id (a Nat)
  and a list is the sequence of node ids from head to tail.
-/

/-- PIDList::append of a single node (the node argument is never NULL at
the modelled call sites and has a null next pointer, so it appends one
element at the tail). -/
def plAppend (l : List Nat) (n : Nat) : List Nat := l ++ [n]

/-- The prev/cur scan of PIDList::remove over the tail of the list:
removes the first occurrence, or leaves the list unchanged (RDCERR)
when the node is not found. -/
def plRemoveAux : List Nat → Nat → List Nat
  | [], _ => []
  | c :: cs, n => if c = n then cs else c :: plRemoveAux cs n

/-- PIDList::remove. The empty-list case with a non-null node would
dereference a null head pointer in the source; the modelled call sites
only remove nodes that are members of the list. -/
def plRemove (l : List Nat) (n : Nat) : List Nat :=
  match l with
  | [] => []
  | h :: t => if n = h then t else h :: plRemoveAux t n

/-- PIDList::pop_front dereferences the head with no null check, so it is
embedded as a partial operation returning none on the empty list. -/
def pop_front? (l : List Nat) : Option (Nat × List Nat) :=
  match l with
  | [] => none
  | h :: t => some (h, t)

/-- An operation on a PIDList. -/
inductive PLOp where
  | app (n : Nat)
  | rem (n : Nat)
  | pop
deriving DecidableEq

/-- Effect of one operation on a PIDList. -/
def runOp (l : List Nat) : PLOp → List Nat
  | PLOp.app n => plAppend l n
  | PLOp.rem n => plRemove l n
  | PLOp.pop =>
    match pop_front? l with
    | none => l
    | some (_, t) => t

/-- Effect of a sequence of operations. -/
def runOps (l : List Nat) : List PLOp → List Nat
  | [] => l
  | op :: ops => runOps (runOp l op) ops

/-- Validity of an operation sequence: appended nodes are not currently in
the list, removed nodes are members, and pop is only applied to a
non-empty list (as at the call sites). -/
def validOps (l : List Nat) : List PLOp → Bool
  | [] => true
  | PLOp.app n :: ops => !l.contains n && validOps (runOp l (PLOp.app n)) ops
  | PLOp.rem n :: ops => l.contains n && validOps (runOp l (PLOp.rem n)) ops
  | PLOp.pop :: ops => !l.isEmpty && validOps (runOp l PLOp.pop) ops

theorem plRemoveAux_sublist (t : List Nat) (n : Nat) : (plRemoveAux t n).Sublist t := by
  induction t with
  | nil => simp [plRemoveAux]
  | cons c cs ih =>
    rw [plRemoveAux]
    split
    · exact (List.Sublist.refl cs).cons c
    · exact ih.cons₂ c

theorem plRemove_sublist (l : List Nat) (n : Nat) : (plRemove l n).Sublist l := by
  cases l with
  | nil => simp [plRemove]
  | cons h t =>
    rw [plRemove]
    split
    · exact (List.Sublist.refl t).cons h
    · exact (plRemoveAux_sublist t n).cons₂ h

theorem runOp_nodup (l : List Nat) (op : PLOp) (hnd : l.Nodup)
    (hv : (match op with
      | PLOp.app n => !l.contains n
      | PLOp.rem n => l.contains n
      | PLOp.pop => !l.isEmpty) = true) : (runOp l op).Nodup := by
  cases op with
  | app n =>
    have hv2 : n ∉ l := by simpa using hv
    simp [runOp, plAppend, List.nodup_append, hnd, List.Disjoint]
    intro a ha han
    exact hv2 (han ▸ ha)
  | rem n => exact (plRemove_sublist l n).nodup hnd
  | pop =>
    cases l with
    | nil => simp at hv
    | cons h t =>
      simp only [runOp, pop_front?]
      exact (List.nodup_cons.mp hnd).2

theorem runOps_nodup (ops : List PLOp) : ∀ l : List Nat, l.Nodup →
    validOps l ops = true → (runOps l ops).Nodup := by
  induction ops with
  | nil => intro l hnd _; exact hnd
  | cons op ops ih =>
    intro l hnd hv
    cases op <;>
      simp only [validOps, Bool.and_eq_true] at hv <;>
      exact ih (runOp l _) (runOp_nodup l _ hnd hv.1) hv.2

theorem plRemoveAux_decomp (t : List Nat) (n : Nat) (h : n ∈ t) :
    ∃ t1 t2, t = t1 ++ n :: t2 ∧ plRemoveAux t n = t1 ++ t2 := by
  induction t with
  | nil => simp at h
  | cons c cs ih =>
    by_cases hc : c = n
    · subst hc
      exact ⟨[], cs, by simp, by simp [plRemoveAux]⟩
    · have h2 : n ∈ cs := by
        rcases List.mem_cons.mp h with h | h
        · exact absurd h.symm hc
        · exact h
      obtain ⟨t1, t2, heq, hrem⟩ := ih h2
      exact ⟨c :: t1, t2, by simp [heq], by simp [plRemoveAux, hc, hrem]⟩

theorem plRemove_decomp (l : List Nat) (n : Nat) (hmem : n ∈ l)
    (hhead : l.head? ≠ some n) :
    ∃ l1 l2, l = l1 ++ n :: l2 ∧ plRemove l n = l1 ++ l2 := by
  cases l with
  | nil => simp at hmem
  | cons h t =>
    have hne : n ≠ h := by
      intro he
      exact hhead (by simp [he])
    have h2 : n ∈ t := by
      rcases List.mem_cons.mp hmem with h3 | h3
      · exact absurd h3 hne
      · exact h3
    obtain ⟨t1, t2, heq, hrem⟩ := plRemoveAux_decomp t n h2
    exact ⟨h :: t1, t2, by simp [heq], by simp [plRemove, hne, hrem]⟩

/-- C9: starting from the empty PIDList, under valid operation sequences
(appended nodes not currently present, removed nodes present, pop only on
non-empty lists): the list never contains a node twice; remove of a
non-head node deletes exactly that node and preserves the relative order
of the remaining nodes; and pop_front followed by append of the popped
node moves that node to the tail. -/
theorem pidlist_ops_spec :
    (∀ ops : List PLOp, validOps [] ops = true → (runOps [] ops).Nodup) ∧
    (∀ (l : List Nat) (n : Nat), n ∈ l → l.head? ≠ some n →
      ∃ l1 l2, l = l1 ++ n :: l2 ∧ plRemove l n = l1 ++ l2) ∧
    (∀ (h : Nat) (t : List Nat), h ∉ t →
      validOps (h :: t) [PLOp.pop, PLOp.app h] = true ∧
      runOps (h :: t) [PLOp.pop, PLOp.app h] = t ++ [h]) := by
  refine ⟨fun ops hv => runOps_nodup ops [] (by simp) hv, plRemove_decomp, ?_⟩
  intro h t hht
  constructor
  · simp [validOps, runOp, pop_front?, hht]
  · simp [runOps, runOp, pop_front?, plAppend]

/-- C9 witness. -/
theorem pidlist_ops_spec_witness :
    (runOps [] [PLOp.app 1, PLOp.app 2, PLOp.pop, PLOp.app 1]).Nodup ∧
    (∃ l1 l2, [5, 7, 9] = l1 ++ 7 :: l2 ∧ plRemove [5, 7, 9] 7 = l1 ++ l2) ∧
    runOps [4, 8] [PLOp.pop, PLOp.app 4] = [8] ++ [4] :=
  ⟨pidlist_ops_spec.1 [PLOp.app 1, PLOp.app 2, PLOp.pop, PLOp.app 1] (by decide),
   pidlist_ops_spec.2.1 [5, 7, 9] 7 (by decide) (by decide),
   (pidlist_ops_spec.2.2 4 [8] (by decide)).2⟩

/-
  Zombie reaper state machine. The shared state is the tracked children
  list and the free list (file-scope variables children and
  freeChildren), both guarded by zombieLock, plus the local list the
  signal handler holds between its two locked sections (detached). The
  allocator counter nextId models `new PIDNode()`: node ids are handed
  out sequentially and nodes are never deallocated while the reaper
  runs (Process::Shutdown is outside the modelled transitions).
-/

structure ReaperState where
  children : List Nat
  free : List Nat
  detached : Option (List Nat)
  nextId : Nat
deriving DecidableEq

/-- The initial state: no tracked children, no free nodes, no handler
in flight. -/
def initReaper : ReaperState := ⟨[], [], none, 0⟩

/-- The registration step of RunProcess (lines 746-762), executed under
the zombie lock: take a node from the free list if one is available,
otherwise allocate a new one, then append it to the tracked children.
Returns none only if pop_front were to be called on an empty list. -/
def registerChild (s : ReaperState) : Option ReaperState :=
  if !s.free.isEmpty then
    match pop_front? s.free with
    | none => none
    | some (n, rest) =>
      some { children := plAppend s.children n, free := rest,
             detached := s.detached, nextId := s.nextId }
  else
    some { children := plAppend s.children s.nextId, free := s.free,
           detached := s.detached, nextId := s.nextId + 1 }

/-- First locked section of ZombieWaiter (lines 177-180): detach the
whole tracked list into a local list. -/
def detachChildren (s : ReaperState) : ReaperState :=
  { children := [], free := s.free, detached := some s.children, nextId := s.nextId }

/-- The waitpid loop of ZombieWaiter (lines 185-200): each node whose pid
waitpid reaps is removed from the local list and appended to the waited
list; the others stay, in order. The reaped predicate abstracts the
outcome of waitpid(pid, NULL, WNOHANG) per node. -/
def zombieScan (reaped : Nat → Bool) : List Nat → List Nat × List Nat
  | [] => ([], [])
  | n :: rest =>
    if reaped n then ((zombieScan reaped rest).1, n :: (zombieScan reaped rest).2)
    else (n :: (zombieScan reaped rest).1, (zombieScan reaped rest).2)

/-- Second locked section of ZombieWaiter (lines 205-209): append the
not-yet-exited remainder back onto the tracked list (after any children
registered in between), and append the waited nodes onto the free list. -/
def reattachChildren (s : ReaperState) (reaped : Nat → Bool) (l : List Nat) : ReaperState :=
  { children := s.children ++ (zombieScan reaped l).1,
    free := s.free ++ (zombieScan reaped l).2,
    detached := none, nextId := s.nextId }

/-- Atomic transitions of the reaper state: a registration (which may
interleave with a handler that is between its two locked sections), the
handler detaching the tracked list, and the handler re-filing the
detached nodes. SIGCHLD is masked during the handler, so a second
detach cannot start while one is in flight. -/
inductive ReaperStep : ReaperState → ReaperState → Prop where
  | register {s s2 : ReaperState} : registerChild s = some s2 → ReaperStep s s2
  | detach {s : ReaperState} : s.detached = none → ReaperStep s (detachChildren s)
  | reattach {s : ReaperState} (reaped : Nat → Bool) (l : List Nat) :
      s.detached = some l → ReaperStep s (reattachChildren s reaped l)

/-- Reachability from the initial reaper state. -/
def ReaperReachable (s : ReaperState) : Prop :=
  Relation.ReflTransGen ReaperStep initReaper s

/-- All nodes currently held by the reaper subsystem, in its three
possible places. -/
def reaperNodes (s : ReaperState) : List Nat :=
  s.children ++ s.free ++ s.detached.getD []

/-- The reaper invariant: nodes are held in exactly one place (no
duplicates anywhere), and the nodes held are exactly the allocated ids. -/
def ReaperInv (s : ReaperState) : Prop :=
  (reaperNodes s).Nodup ∧ ∀ n : Nat, n ∈ reaperNodes s ↔ n < s.nextId

theorem zombieScan_perm (reaped : Nat → Bool) (l : List Nat) :
    ((zombieScan reaped l).1 ++ (zombieScan reaped l).2).Perm l := by
  induction l with
  | nil => simp [zombieScan]
  | cons n rest ih =>
    cases hr : reaped n
    · simpa [zombieScan, hr] using ih.cons n
    · simpa [zombieScan, hr] using List.perm_middle.trans (ih.cons n)

theorem reaperInv_of_perm (s s2 : ReaperState)
    (hp : (reaperNodes s2).Perm (reaperNodes s)) (hid : s2.nextId = s.nextId)
    (hinv : ReaperInv s) : ReaperInv s2 := by
  obtain ⟨hnd, hmem⟩ := hinv
  refine ⟨hp.nodup_iff.mpr hnd, fun n => ?_⟩
  rw [hp.mem_iff, hid]
  exact hmem n

theorem reaperInv_step (s s2 : ReaperState) (hinv : ReaperInv s)
    (hstep : ReaperStep s s2) : ReaperInv s2 := by
  obtain ⟨hnd, hmem⟩ := hinv
  cases hstep with
  | register hreg =>
    rw [registerChild.eq_def] at hreg
    cases hf : s.free with
    | nil =>
      rw [hf] at hreg
      simp only [List.isEmpty_nil, Bool.not_true, Bool.false_eq_true, if_false,
        Option.some.injEq] at hreg
      subst hreg
      have hfresh : s.nextId ∉ reaperNodes s := fun hmem2 =>
        Nat.lt_irrefl s.nextId ((hmem s.nextId).mp hmem2)
      constructor
      · have hperm : (reaperNodes
            (⟨plAppend s.children s.nextId, [], s.detached, s.nextId + 1⟩ : ReaperState)).Perm
            (reaperNodes s ++ [s.nextId]) := by
          rw [reaperNodes, reaperNodes, hf]
          simp only [plAppend, List.append_nil, List.append_assoc]
          exact List.Perm.append_left s.children List.perm_append_comm
        refine hperm.nodup_iff.mpr ?_
        rw [List.nodup_append]
        refine ⟨hnd, by simp, ?_⟩
        intro a ha hax
        rw [List.mem_singleton] at hax
        exact hfresh (hax ▸ ha)
      · intro n
        rw [reaperNodes] at hmem ⊢
        rw [hf] at hmem
        simp only [plAppend]
        simp only [List.append_nil] at *
        simp only [List.mem_append, List.mem_singleton] at *
        constructor
        · rintro ((h | h) | h)
          · have := (hmem n).mp (Or.inl h); omega
          · subst h; omega
          · have := (hmem n).mp (Or.inr h); omega
        · intro h
          rcases Nat.lt_succ_iff_lt_or_eq.mp h with h | h
          · rcases (hmem n).mpr h with h2 | h2
            · exact Or.inl (Or.inl h2)
            · exact Or.inr h2
          · exact Or.inl (Or.inr h)
    | cons fh ft =>
      rw [hf] at hreg
      simp only [List.isEmpty_cons, Bool.not_false, if_true, pop_front?,
        Option.some.injEq] at hreg
      subst hreg
      refine reaperInv_of_perm s _ ?_ rfl ⟨hnd, hmem⟩
      rw [reaperNodes, reaperNodes, hf]
      simp only [plAppend, List.append_assoc, List.singleton_append, List.cons_append]
      exact List.Perm.refl _
  | detach hdet =>
    refine reaperInv_of_perm s _ ?_ rfl ⟨hnd, hmem⟩
    rw [reaperNodes, reaperNodes, detachChildren, hdet]
    simp only [Option.getD_some, Option.getD_none, List.nil_append, List.append_nil]
    exact List.perm_append_comm
  | reattach reaped l hdet =>
    refine reaperInv_of_perm s _ ?_ rfl ⟨hnd, hmem⟩
    rw [reaperNodes, reaperNodes, reattachChildren, hdet]
    simp only [Option.getD_some, Option.getD_none, List.append_nil, List.append_assoc]
    refine List.Perm.append_left s.children ?_
    refine List.Perm.trans ?_ (List.Perm.append_left s.free (zombieScan_perm reaped l))
    rw [← List.append_assoc, ← List.append_assoc]
    exact List.Perm.append_right _ List.perm_append_comm

theorem reaperInv_reachable (s : ReaperState) (h : ReaperReachable s) : ReaperInv s := by
  induction h with
  | refl => exact ⟨by simp [reaperNodes, initReaper], by simp [reaperNodes, initReaper]⟩
  | tail hsteps hstep ih => exact reaperInv_step _ _ ih hstep

/-- C8: in every reachable reaper state in which no handler is holding a
detached list, every node created so far is a member of exactly one of the
tracked children list and the free list - never both, never neither. -/
theorem pidnode_exactly_one (s : ReaperState) (hreach : ReaperReachable s)
    (hdet : s.detached = none) (n : Nat) (hn : n < s.nextId) :
    (n ∈ s.children ∧ n ∉ s.free) ∨ (n ∈ s.free ∧ n ∉ s.children) := by
  obtain ⟨hnd, hmem⟩ := reaperInv_reachable s hreach
  have hn2 : n ∈ reaperNodes s := (hmem n).mpr hn
  rw [reaperNodes, hdet] at hn2 hnd
  simp only [Option.getD_none, List.append_nil] at hn2 hnd
  rw [List.nodup_append] at hnd
  rcases List.mem_append.mp hn2 with h | h
  · exact Or.inl ⟨h, fun hf => hnd.2.2 h hf⟩
  · exact Or.inr ⟨h, fun hc => hnd.2.2 hc h⟩

/-- C8 witness: the state reached by one registration from the initial
state, holding the single node 0 on the tracked list. -/
theorem pidnode_exactly_one_witness :
    (0 ∈ ([0] : List Nat) ∧ 0 ∉ ([] : List Nat)) ∨
    (0 ∈ ([] : List Nat) ∧ 0 ∉ ([0] : List Nat)) :=
  pidnode_exactly_one ⟨[0], [], none, 1⟩
    (Relation.ReflTransGen.single
      (@ReaperStep.register initReaper ⟨[0], [], none, 1⟩ (by decide)))
    rfl 0 (by decide)

/-- C10: pop_front returns a value exactly on non-empty lists (the null
head dereference is the none branch), and the registration call site
guards it with a non-empty check on the free list, so registration never
reaches the error branch. -/
theorem pop_front_partial_guarded :
    (∀ l : List Nat, l ≠ [] → (pop_front? l).isSome = true) ∧
    (∀ s : ReaperState, (registerChild s).isSome = true) := by
  constructor
  · intro l hl
    cases l with
    | nil => exact absurd rfl hl
    | cons h t => rfl
  · intro s
    cases hf : s.free with
    | nil => simp [registerChild, hf]
    | cons h t => simp [registerChild, hf, pop_front?]

/-- C10 witness. -/
theorem pop_front_partial_guarded_witness :
    (pop_front? [3]).isSome = true ∧ (registerChild initReaper).isSome = true :=
  ⟨pop_front_partial_guarded.1 [3] (by decide), pop_front_partial_guarded.2 initReaper⟩

/-
  RunProcess (posix_process.cpp lines 535-775). The function is hijacked
  by hardcoded override logic (lines 595-703): after parameter checks,
  shell expansion, tokenization and path resolution it changes directory
  to a fixed working directory and calls execve on the fixed program hmi
  with a fixed argument list and environment, returning child pid 0 when
  that exec fails. The designed launcher (fork, pause-at-main, pipe
  redirection, zombie registration, lines 705-774) sits after an
  unconditional return and is unreachable.
-/

/-- Oracle for the OS primitives and out-of-unit helpers RunProcess uses:
rdcstr::trimmed, getcwd, getenv(HOME), getpwnam, realpath,
FileIO::FindFileInPath, get_dirname, get_basename, and whether a given
execve call succeeds (replacing the process image). -/
structure OSEnv where
  trimmed : rdcstr → rdcstr
  cwd : rdcstr
  home : rdcstr
  pwnam : rdcstr → Option rdcstr
  realpath : rdcstr → rdcstr
  findFileInPath : rdcstr → rdcstr
  get_dirname : rdcstr → rdcstr
  get_basename : rdcstr → rdcstr
  execveOk : rdcstr → List rdcstr → List rdcstr → Bool

/-- shellExpand (lines 302-347): expand ./, ~/ and ~user prefixes. -/
def shellExpand (os : OSEnv) (inp : rdcstr) : rdcstr :=
  let path := os.trimmed inp
  match path with
  | '.' :: '/' :: _ => os.cwd ++ path.drop 1
  | '~' :: '/' :: _ => os.home ++ path.drop 1
  | '~' :: rest =>
    let slash := path.findIdx? (fun c => c == '/')
    let username :=
      match slash with
      | some i => (path.drop 1).take (i - 1)
      | none => rest
    (match os.pwnam username with
     | some pwdir =>
       match slash with
       | some i => pwdir ++ path.drop i
       | none => pwdir
     | none => path)
  | _ => path

/-- GetAbsoluteAppPathFromName (lines 249-267): canonicalize a path
containing a slash, otherwise search the executable search path. -/
def GetAbsoluteAppPathFromName (os : OSEnv) (appName : rdcstr) : rdcstr :=
  if appName.contains '/' then
    os.realpath (os.get_dirname appName) ++ str "/" ++ os.get_basename appName
  else
    os.findFileInPath appName

/-- Process-level events recorded by the embedding of RunProcess and
the injection coordinator. -/
inductive PEvent where
  | chdir (dir : rdcstr)
  | execve (path : rdcstr) (argv : List rdcstr) (envp : List rdcstr)
  | fork
deriving DecidableEq

/-- How a call to RunProcess ends: either execve succeeded and the
calling process was replaced, or the function returned a child pid. -/
inductive RunOutcome where
  | replaced
  | returned (pid : Nat)
deriving DecidableEq

/-- The observable result of RunProcess: its event trace and outcome. -/
structure RunResult where
  events : List PEvent
  outcome : RunOutcome
deriving DecidableEq

/-- The hardcoded working directory of the override (line 595). -/
def hardcodedWorkDir : rdcstr := str "/home/nvidia/workspace/wqg/QingLong/"

/-- The hardcoded argument list of the override (lines 599-603). -/
def hardcodedArgv : List rdcstr :=
  [str "hmi", str "config/hmi/hmi_config.json", str "--work-mode=1"]

/-- The hardcoded environment block of the override (lines 604-698),
all 78 entries verbatim. -/
def hardcodedEnv : List rdcstr :=
  [str "CLUTTER_IM_MODULE=xim",
    str "CMAKE_PREFIX_PATH=/opt/ros/melodic",
    str "COLORTERM=truecolor",
    str "COLUMNS=204",
    str "DBUS_SESSION_BUS_ADDRESS=unix:path=/run/user/1000/bus ",
    str "DESKTOP_SESSION=unity",
    str "DISPLAY=:0",
    str "GDMSESSION=unity",
    str "GNOME_DESKTOP_SESSION_ID=this-is-deprecated",
    str "GNOME_TERMINAL_SCREEN=/org/gnome/Terminal/screen/366cdcf6_13b0_43e7_a641_ff9989aa218a",
    str "GNOME_TERMINAL_SERVICE=:1.90",
    str "GPG_AGENT_INFO=/run/user/1000/gnupg/S.gpg-agent:0:1",
    str "GTK_CSD=0",
    str "GTK_IM_MODULE=ibus",
    str "GTK_MODULES=gail:atk-bridge",
    str "HOME=/home/nvidia",
    str "IM_CONFIG_PHASE=2",
    str "INVOCATION_ID=219f44c38dce4ef7a643ea3e276b8273",
    str "JOURNAL_STREAM=8:43582",
    str "LANG=en_US.UTF-8",
    str "LC_ADDRESS=zh_CN.UTF-8",
    str "LC_IDENTIFICATION=zh_CN.UTF-8",
    str "LC_MEASUREMENT=zh_CN.UTF-8",
    str "LC_MONETARY=zh_CN.UTF-8",
    str "LC_NAME=zh_CN.UTF-8",
    str "LC_NUMERIC=zh_CN.UTF-8",
    str "LC_PAPER=zh_CN.UTF-8",
    str "LC_TELEPHONE=zh_CN.UTF-8",
    str "LC_TIME=zh_CN.UTF-8",
    str "LD_LIBRARY_PATH=/home/nvidia/workspace/wqg/QingLong:/opt/ros/melodic/lib:/usr/local/cuda-10.0/lib64:/opt/miivii/lib:/usr/lib/aarch64-linux-gnu/tegra:./:/opt/ros/melodic/lib:/usr/local/cuda-10.0/lib64:/opt/miivii/lib:/usr/lib/aarch64-linux-gnu/tegra:/opt/ros/melodic/lib:/usr/local/cuda-10.0/lib64:/opt/miivii/lib::/home/nvidia/workspace/wqg/renderdoc/build/bin:/home/nvidia/workspace/wqg/renderdoc/build/bin/../lib:/home/nvidia/workspace/wqg/renderdoc/build/lib",
    str "LD_PRELOAD=libgtk3-nocsd.so.0:librenderdoc.so",
    str "LESSCLOSE=/usr/bin/lesspipe %s %s ",
    str "LESSOPEN=| /usr/bin/lesspipe %s",
    str "LINES=46",
    str "LOGNAME=nvidia",
    str "LS_COLORS=rs=0:di=01;34:ln=01;36:mh=00:pi=40;33:so=01;35:do=01;35:bd=40;33;01:cd=40;33;01:or=40;31;01:mi=00:su=37;41:sg=30;43:ca=30;41:tw=30;42:ow=34;42:st=37;44:ex=01;32:*.tar=01;31:*.tgz=01;31:*.arc=01;31:*.arj=01;31:*.taz=01;31:*.lha=01;31:*.lz4=01;31:*.lzh=01;31:*.lzma=01;31:*.tlz=01;31:*.txz=01;31:*.tzo=01;31:*.t7z=01;31:*.zip=01;31:*.z=01;31:*.Z=01;31:*.dz=01;31:*.gz=01;31:*.lrz=01;31:*.lz=01;31:*.lzo=01;31:*.xz=01;31:*.zst=01;31:*.tzst=01;31:*.bz2=01;31:*.bz=01;31:*.tbz=01;31:*.tbz2=01;31:*.tz=01;31:*.deb=01;31:*.rpm=01;31:*.jar=01;31:*.war=01;31:*.ear=01;31:*.sar=01;31:*.rar=01;31:*.alz=01;31:*.ace=01;31:*.zoo=01;31:*.cpio=01;31:*.7z=01;31:*.rz=01;31:*.cab=01;31:*.wim=01;31:*.swm=01;31:*.dwm=01;31:*.esd=01;31:*.jpg=01;35:*.jpeg=01;35:*.mjpg=01;35:*.mjpeg=01;35:*.gif=01;35:*.bmp=01;35:*.pbm=01;35:*.pgm=01;35:*.ppm=01;35:*.tga=01;35:*.xbm=01;35:*.xpm=01;35:*.tif=01;35:*.tiff=01;35:*.png=01;35:*.svg=01;35:*.svgz=01;35:*.mng=01;35:*.pcx=01;35:*.mov=01;35:*.mpg=01;35:*.mpeg=01;35:*.m2v=01;35:*.mkv=01;35:*.webm=01;35:*.ogm=01;35:*.mp4=01;35:*.m4v=01;35:*.mp4v=01;35:*.vob=01;35:*.qt=01;35:*.nuv=01;35:*.wmv=01;35:*.asf=01;35:*.rm=01;35:*.rmvb=01;35:*.flc=01;35:*.avi=01;35:*.fli=01;35:*.flv=01;35:*.gl=01;35:*.dl=01;35:*.xcf=01;35:*.xwd=01;35:*.yuv=01;35:*.cgm=01;35:*.emf=01;35:*.ogv=01;35:*.ogx=01;35:*.aac=00;36:*.au=00;36:*.flac=00;36:*.m4a=00;36:*.mid=00;36:*.midi=00;36:*.mka=00;36:*.mp3=00;36:*.mpc=00;36:*.ogg=00;36:*.ra=00;36:*.wav=00;36:*.oga=00;36:*.opus=00;36:*.spx=00;36:*.xspf=00;36:",
    str "MANAGERPID=6563",
    str "OLDPWD=/home/nvidia",
    str "PATH=/opt/ros/melodic/bin:/usr/local/cuda-10.0/bin:/opt/miivii/bin:/usr/sbin:/usr/bin:/usr/local/sbin:/usr/local/bin:/sbin:/bin:/usr/games:/usr/local/games:/snap/bin:/home/nvidia/workspace/wqg/QingLong",
    str "PKG_CONFIG_PATH=/opt/ros/melodic/lib/pkgconfig",
    str "PWD=/home/nvidia/workspace/wqg/renderdoc/build/bin",
    str "PYTHONPATH=/opt/ros/melodic/lib/python2.7/dist-packages:/usr/local/python:",
    str "QT4_IM_MODULE=xim",
    str "QT_ACCESSIBILITY=1",
    str "QT_IM_MODULE=ibus",
    str "RENDERDOC_CAPFILE= ",
    str "RENDERDOC_CAPOPTS=ababaaaaaaaaaaaaaaaaaaaaaaaaaaaaabohpppp",
    str "RENDERDOC_DEBUG_LOG_FILE=/tmp/RenderDoc/RenderDoc_2022.12.05_15.04.29.log",
    str "RENDERDOC_ORIGLIBPATH=/home/nvidia/workspace/wqg/QingLong:/opt/ros/melodic/lib:/usr/local/cuda-10.0/lib64:/opt/miivii/lib:/usr/lib/aarch64-linux-gnu/tegra:./:/opt/ros/melodic/lib:/usr/local/cuda-10.0/lib64:/opt/miivii/lib:/usr/lib/aarch64-linux-gnu/tegra:/opt/ros/melodic/lib:/usr/local/cuda-10.0/lib64:/opt/miivii/lib:",
    str "RENDERDOC_ORIGPRELOAD=libgtk3-nocsd.so.0",
    str "ROSLISP_PACKAGE_DIRECTORIES= ",
    str "ROS_DISTRO=melodic",
    str "ROS_ETC_DIR=/opt/ros/melodic/etc/ros",
    str "ROS_MASTER_URI=http://localhost:11311",
    str "ROS_PACKAGE_PATH=/opt/ros/melodic/share",
    str "ROS_PYTHON_VERSION=2",
    str "ROS_ROOT=/opt/ros/melodic/share/ros",
    str "ROS_VERSION=1",
    str "SHELL=/bin/bash",
    str "SHLVL=2",
    str "SSH_AGENT_LAUNCHER=gnome-keyring",
    str "SSH_AUTH_SOCK=/run/user/1000/keyring/ssh",
    str "TERM=xterm-256color",
    str "TEXTDOMAIN=im-config",
    str "TEXTDOMAINDIR=/usr/share/locale/",
    str "USER=nvidia",
    str "USERNAME=nvidia",
    str "VTE_VERSION=5202",
    str "WINDOWPATH=1",
    str "XAUTHORITY=/run/user/1000/gdm/Xauthority",
    str "XDG_CONFIG_DIRS=/etc/xdg/xdg-unity:/etc/xdg",
    str "XDG_CURRENT_DESKTOP=Unity:Unity7:ubuntu",
    str "XDG_DATA_DIRS=/usr/share/unity:/home/nvidia/.local/share/flatpak/exports/share/:/var/lib/flatpak/exports/share/:/usr/local/share/:/usr/share/:/var/lib/snapd/desktop",
    str "XDG_RUNTIME_DIR=/run/user/1000",
    str "XDG_SESSION_DESKTOP=unity",
    str "XDG_SESSION_TYPE=x11",
    str "XMODIFIERS=@im=ibus",
    str "_=/usr/bin/gdb"]

/-- RunProcess (lines 535-775). printf logging is not modelled. The code
after the unconditional `return 0` that follows the hardcoded execve
(the fork/exec launcher, lines 705-774) is dead and therefore absent
from the embedding; the absence of a fork event witnesses that the
launcher path is not executed. -/
def RunProcess (os : OSEnv) (appName0 workDir0 cmdLine : rdcstr) (envp : List rdcstr)
    (pauseAtMain : Bool) : RunResult :=
  if appName0.isEmpty then ⟨[], RunOutcome.returned 0⟩
  else
    let workDir1 := if workDir0.isEmpty then os.get_dirname appName0 else workDir0
    let appName := shellExpand os appName0
    let workDir := shellExpand os workDir1
    let argvList := ParseCommandLine appName cmdLine
    if argvList.isEmpty then ⟨[], RunOutcome.returned 0⟩
    else
      let appPath := GetAbsoluteAppPathFromName os appName
      let evs := [PEvent.chdir hardcodedWorkDir,
                  PEvent.execve (str "hmi") hardcodedArgv hardcodedEnv]
      if os.execveOk (str "hmi") hardcodedArgv hardcodedEnv then
        ⟨evs, RunOutcome.replaced⟩
      else
        ⟨evs, RunOutcome.returned 0⟩

/-- A trivial oracle used for concrete evaluations. -/
def osTriv : OSEnv :=
  ⟨id, [], [], fun _ => none, id, id, id, id, fun _ _ _ => false⟩

/-- C1 (counterexample): the claim quantifies over any app path and any
command line, but on an empty app path, and likewise on a malformed
command line, RunProcess returns before the override, so no chdir and no
execve on hmi happens there. -/
theorem runProcess_override_counterexample :
    (RunProcess osTriv [] (str "w") (str "cmd") [] false).events = [] ∧
    (RunProcess osTriv (str "app") (str "w") [squoteChar] [] false).events = [] := by
  constructor <;> decide

/-- C1 (amended): for every launch request whose app path is non-empty
and whose command line the tokenizer accepts, RunProcess performs exactly
the hardcoded chdir and the hardcoded execve of hmi with the fixed
argument list and environment, never forks, returns child pid 0 when
that exec fails, and is replaced by hmi when it succeeds. -/
theorem runProcess_hardcoded_override (os : OSEnv) (appName workDir cmdLine : rdcstr)
    (envp : List rdcstr) (pauseAtMain : Bool) (happ : appName ≠ [])
    (hparse : ParseCommandLine (shellExpand os appName) cmdLine ≠ []) :
    (RunProcess os appName workDir cmdLine envp pauseAtMain).events
        = [PEvent.chdir hardcodedWorkDir,
           PEvent.execve (str "hmi") hardcodedArgv hardcodedEnv] ∧
    PEvent.fork ∉ (RunProcess os appName workDir cmdLine envp pauseAtMain).events ∧
    (os.execveOk (str "hmi") hardcodedArgv hardcodedEnv = false →
      (RunProcess os appName workDir cmdLine envp pauseAtMain).outcome
        = RunOutcome.returned 0) ∧
    (os.execveOk (str "hmi") hardcodedArgv hardcodedEnv = true →
      (RunProcess os appName workDir cmdLine envp pauseAtMain).outcome
        = RunOutcome.replaced) := by
  have he : appName.isEmpty = false := by simpa using happ
  have hp : (ParseCommandLine (shellExpand os appName) cmdLine).isEmpty = false := by
    simpa using hparse
  rw [RunProcess]
  simp only [he, hp, Bool.false_eq_true, if_false]
  cases hex : os.execveOk (str "hmi") hardcodedArgv hardcodedEnv <;> simp [hex]

/-- C1 witness. -/
theorem runProcess_hardcoded_override_witness :
    (RunProcess osTriv (str "app") (str "w") (str "") [] false).events
        = [PEvent.chdir hardcodedWorkDir,
           PEvent.execve (str "hmi") hardcodedArgv hardcodedEnv] ∧
    (RunProcess osTriv (str "app") (str "w") (str "") [] false).outcome
        = RunOutcome.returned 0 :=
  have h := runProcess_hardcoded_override osTriv (str "app") (str "w") (str "") [] false
    (by decide) (by decide)
  ⟨h.1, h.2.2.1 rfl⟩

/-
  Process::LaunchAndInjectIntoProcess (posix_process.cpp lines
  1014-1118). The environment map is std::map<rdcstr, rdcstr>; it is
  modelled as an association list (its iteration order only affects the
  order of the envp block handed to RunProcess, which no claim
  observes). GetIdentPort, ResumeProcess and waitpid are external;
  GetIdentPort is an oracle and ResumeProcess/waitpid are recorded as
  events. The inner RunProcess call is abstracted by the oracle field
  runProcessPid, the pid value that call returns, so the handshake
  logic is verified for every possible launcher outcome (in this
  source RunProcess only ever returns 0, see the C1 analysis).
-/

/-- The result codes this function can produce. -/
inductive ResultCode where
  | Succeeded
  | InvalidParameter
  | InjectionFailed
deriving DecidableEq

/-- Events of the injection coordinator: ResumeProcess(pid, delay) and
the blocking waitpid when waitForExit is set. -/
inductive InjEvent where
  | resume (pid : Nat) (delay : Nat)
  | waitExit (pid : Nat)
deriving DecidableEq

/-- Observable outcome of LaunchAndInjectIntoProcess: the result code,
the ident port returned, and the event trace. -/
structure InjectOutcome where
  resultCode : ResultCode
  ident : Nat
  events : List InjEvent
deriving DecidableEq

/-- Oracle for the environment of LaunchAndInjectIntoProcess: the current
process environment block, the process-wide registered modifications,
the paths and encoded strings GetHookingEnvMods reads (all produced
outside this translation unit), the debugger delay from the capture
options, the pid returned by the RunProcess call, and GetIdentPort. -/
structure InjOS where
  currentEnv : List rdcstr
  registeredMods : List EnvironmentModification
  binpath : rdcstr
  libpath : rdcstr
  ownlibpath : rdcstr
  origLibPath : rdcstr
  origPreload : rdcstr
  optstr : rdcstr
  logfile : rdcstr
  delayForDebugger : Nat
  runProcessPid : Nat
  identPort : Nat → Nat

/-- std::map operator[] based insertion: update the entry if the key is
present, otherwise add it. -/
def mapSet : List (rdcstr × rdcstr) → rdcstr → rdcstr → List (rdcstr × rdcstr)
  | [], k, v => [(k, v)]
  | kv :: rest, k, v =>
    if kv.1 == k then (kv.1, v) :: rest else kv :: mapSet rest k v

/-- std::map lookup, defaulting to the empty string as operator[] does
for an absent key. -/
def mapGet (m : List (rdcstr × rdcstr)) (k : rdcstr) : rdcstr :=
  match m.find? (fun kv => kv.1 == k) with
  | none => []
  | some kv => kv.2

/-- strchr(e, =) of EnvStringToEnvMap: split an environment entry at its
first equals sign; entries without one are skipped. -/
def splitAtEquals (e : rdcstr) : Option (rdcstr × rdcstr) :=
  match e.findIdx? (fun c => c == '=') with
  | none => none
  | some i => some (e.take i, e.drop (i + 1))

/-- EnvStringToEnvMap (lines 275-300). -/
def EnvStringToEnvMap (envs : List rdcstr) : List (rdcstr × rdcstr) :=
  envs.foldl (fun m e =>
    match splitAtEquals e with
    | none => m
    | some nv => mapSet m nv.1 nv.2) []

/-- The modification loop of LaunchAndInjectIntoProcess (lines 1036-1073):
for each modification in order, read the current value through the map
(absent means empty), apply the inline update, and store the result. -/
def inlineApplyMods (env : List (rdcstr × rdcstr))
    (mods : List EnvironmentModification) : List (rdcstr × rdcstr) :=
  mods.foldl (fun e m => mapSet e m.name (inlineEnvUpdate m (mapGet e m.name))) env

/-- GetHookingEnvMods (lines 868-919) on linux: preserve the original
library-path and preload values under renamed keys, append the tool
directories to LD_LIBRARY_PATH, append librenderdoc.so to LD_PRELOAD,
and set the capture file, capture options and log file variables. -/
def GetHookingEnvMods (os : InjOS) (capturefile : rdcstr) : List EnvironmentModification :=
  [⟨EnvMod.Append, EnvSep.Platform, str "RENDERDOC_ORIGLIBPATH", os.origLibPath⟩,
   ⟨EnvMod.Append, EnvSep.Platform, str "RENDERDOC_ORIGPRELOAD", os.origPreload⟩,
   ⟨EnvMod.Append, EnvSep.Platform, str "LD_LIBRARY_PATH", os.binpath⟩,
   ⟨EnvMod.Append, EnvSep.Platform, str "LD_LIBRARY_PATH", os.libpath⟩,
   ⟨EnvMod.Append, EnvSep.Platform, str "LD_LIBRARY_PATH", os.ownlibpath⟩,
   ⟨EnvMod.Append, EnvSep.Platform, str "LD_PRELOAD", str "librenderdoc.so"⟩,
   ⟨EnvMod.Set, EnvSep.NoSep, str "RENDERDOC_CAPFILE", capturefile⟩,
   ⟨EnvMod.Set, EnvSep.NoSep, str "RENDERDOC_CAPOPTS", os.optstr⟩,
   ⟨EnvMod.Set, EnvSep.NoSep, str "RENDERDOC_DEBUG_LOG_FILE", os.logfile⟩]

/-- Process::LaunchAndInjectIntoProcess (lines 1014-1118). -/
def LaunchAndInjectIntoProcess (os : InjOS) (app workingDir cmdLine : rdcstr)
    (envList : List EnvironmentModification) (capturefile : rdcstr)
    (waitForExit : Bool) : InjectOutcome :=
  if app.isEmpty then ⟨ResultCode.InvalidParameter, 0, []⟩
  else
    let env0 := EnvStringToEnvMap os.currentEnv
    let modifications := os.registeredMods ++ envList ++ GetHookingEnvMods os capturefile
    let env := inlineApplyMods env0 modifications
    let childPid := os.runProcessPid
    if childPid ≠ 0 then
      let ret := os.identPort childPid
      let events := InjEvent.resume childPid os.delayForDebugger ::
        (if waitForExit then [InjEvent.waitExit childPid] else [])
      if ret = 0 then ⟨ResultCode.InjectionFailed, ret, events⟩
      else ⟨ResultCode.Succeeded, ret, events⟩
    else ⟨ResultCode.InjectionFailed, 0, []⟩

/-- C2: whenever the handshake never yields a port (GetIdentPort returns
0 for every pid), a launch with a non-empty app path reports
InjectionFailed, and whenever a child was created (nonzero pid) the
coordinator still calls ResumeProcess on it before returning. -/
theorem launchAndInject_handshake_failure (os : InjOS) (app workingDir cmdLine : rdcstr)
    (envList : List EnvironmentModification) (capturefile : rdcstr) (waitForExit : Bool)
    (happ : app ≠ []) (hport : ∀ p : Nat, os.identPort p = 0) :
    (LaunchAndInjectIntoProcess os app workingDir cmdLine envList capturefile
        waitForExit).resultCode = ResultCode.InjectionFailed ∧
    (os.runProcessPid ≠ 0 →
      InjEvent.resume os.runProcessPid os.delayForDebugger
        ∈ (LaunchAndInjectIntoProcess os app workingDir cmdLine envList capturefile
            waitForExit).events) := by
  have he : app.isEmpty = false := by simpa using happ
  rw [LaunchAndInjectIntoProcess]
  simp only [he, Bool.false_eq_true, if_false]
  cases hpid : os.runProcessPid with
  | zero => simp
  | succ n => simp [hport]

/-- The concrete oracle for the C2 witness: a launch that produced child
pid 7 while the ident port probe always returns 0. -/
def injOsW : InjOS := ⟨[], [], [], [], [], [], [], [], [], 0, 7, fun _ => 0⟩

/-- C2 witness. -/
theorem launchAndInject_handshake_failure_witness :
    (LaunchAndInjectIntoProcess injOsW (str "app") [] [] [] [] false).resultCode
      = ResultCode.InjectionFailed ∧
    InjEvent.resume 7 0
      ∈ (LaunchAndInjectIntoProcess injOsW (str "app") [] [] [] [] false).events :=
  have h := launchAndInject_handshake_failure injOsW (str "app") [] [] [] [] false
    (by decide) (fun _ => rfl)
  ⟨h.1, h.2 (by decide)⟩

end RenderDocPosix
